import Mathlib

/-!
Verification development for the ensembling subsystem of the
commonlitreadabilityprize repository: a shallow embedding over ℚ of
`netflix` (src/submissions/submission_netflix.py, lines 394-402) and
`create_folds` (lines 405-414), together with theorems settling the
frozen claims about them.

Floating-point arithmetic is idealised as exact rational arithmetic;
the claims under consideration are algebraic/structural and do not
concern rounding.
-/

namespace Netflix

open Matrix BigOperators

/-- Model of `np.linalg.pinv` as applied inside `netflix`.
`np.linalg.pinv` computes the Moore-Penrose pseudo-inverse; on an
invertible matrix this coincides with the ordinary inverse.  Inside
`netflix` the argument is `XᵀX + l*n*I`, which is symmetric positive
semi-definite plus `l*n` times the identity, hence invertible whenever
`l > 0` and `n ≥ 1`; every claim that depends on the entries produced
by the pseudo-inverse is settled in that regime (or in a regime where
the result is independent of the branch, e.g. a zero right-hand side).
We use the explicit adjugate formula so the definition is computable;
over the field ℚ it agrees with Mathlib's `Matrix.inv` (which returns
the zero matrix on singular input). -/
def pinv {m : ℕ} (A : Matrix (Fin m) (Fin m) ℚ) : Matrix (Fin m) (Fin m) ℚ :=
  (A.det)⁻¹ • A.adjugate

/-- Shallow embedding of `netflix(es, ps, e0, l)`
(submission_netflix.py lines 394-402) at a fixed shape: `m` models,
prediction vectors of length `n`.

Python source:
  m = len(es)
  n = len(ps[0])
  X = np.stack(ps).T
  pTy = 0.5 * (n * e0 ** 2 + (X ** 2).sum(axis=0) - n * np.array(es) ** 2)
  w = np.linalg.pinv(X.T.dot(X) + l * n * np.eye(m)).dot(pTy)
  return X.dot(w), w

`np.stack(ps)` is the m×n matrix whose rows are the prediction
vectors, so `X` is its transpose (n×m); `(X ** 2).sum(axis=0)` is the
vector of column sums of squares. -/
def netflix {m n : ℕ} (es : Fin m → ℚ) (ps : Fin m → Fin n → ℚ) (e0 l : ℚ) :
    (Fin n → ℚ) × (Fin m → ℚ) :=
  let X : Matrix (Fin n) (Fin m) ℚ := (Matrix.of ps).transpose
  let pTy : Fin m → ℚ :=
    fun i => (1/2) * ((n : ℚ) * e0 ^ 2 + (∑ j, (X j i) ^ 2) - (n : ℚ) * (es i) ^ 2)
  let w : Fin m → ℚ :=
    (pinv (X.transpose * X + (l * (n : ℚ)) • (1 : Matrix (Fin m) (Fin m) ℚ))).mulVec pTy
  (X.mulVec w, w)

/-- The same computation written exactly as the specification words it
(spec.md §4.2): `X` is the n×m matrix whose columns are the prediction
vectors, `pTy i = 0.5 * (n*e0² + Σ_j (p_i j)² - n*(es i)²)`, and
`w = pinv(XᵀX + λ·n·I) @ pTy`; the function returns `(X @ w, w)`. -/
def netflixSpec {m n : ℕ} (es : Fin m → ℚ) (ps : Fin m → Fin n → ℚ) (e0 l : ℚ) :
    (Fin n → ℚ) × (Fin m → ℚ) :=
  let X : Matrix (Fin n) (Fin m) ℚ := Matrix.of fun j i => ps i j
  let pTy : Fin m → ℚ :=
    fun i => (1/2) * ((n : ℚ) * e0 ^ 2 + (∑ j, (ps i j) ^ 2) - (n : ℚ) * (es i) ^ 2)
  let w : Fin m → ℚ :=
    (pinv (X.transpose * X + (l * (n : ℚ)) • (1 : Matrix (Fin m) (Fin m) ℚ))).mulVec pTy
  (X.mulVec w, w)

/-- Python-level error outcomes of `netflix` on malformed input, as the
interpreter produces them: `indexErr` models the `IndexError` raised by
`ps[0]` when `ps` is empty; `shapeErr` models the `ValueError` raised by
`np.stack` when the prediction vectors do not all share one length;
`broadcastErr` coarsely models the numpy broadcasting failure in the
`pTy` line when `len(es) ≠ len(ps)` (that branch is outside every claim
and is never mentioned by a theorem below: numpy's actual behaviour
there depends on whether one of the lengths is 1). -/
inductive PyErr where
  | indexErr : PyErr
  | shapeErr : PyErr
  | broadcastErr : PyErr
deriving DecidableEq

/-- List-level embedding of `netflix`, recording where the Python code
fails before any matrix algebra happens.  Evaluation order follows the
source: `n = len(ps[0])` first (IndexError on zero models), then
`np.stack(ps)` (ValueError on mismatched vector lengths), then the
algebra of lines 397-402, which is delegated to the shape-indexed
embedding `netflix` above.  Note the source performs no explicit
validation: these errors are the interpreter's own. -/
def netflixChecked (es : List ℚ) (ps : List (List ℚ)) (e0 l : ℚ) :
    Except PyErr (List ℚ × List ℚ) :=
  match ps with
  | [] => .error .indexErr
  | p0 :: rest =>
    if ∀ p ∈ rest, p.length = p0.length then
      if es.length = (p0 :: rest).length then
        let m := (p0 :: rest).length
        let n := p0.length
        let esF : Fin m → ℚ := fun i => es.getD i 0
        let psF : Fin m → Fin n → ℚ := fun i j => ((p0 :: rest).getD i []).getD j 0
        let r := netflix esF psF e0 l
        .ok (List.ofFn r.1, List.ofFn r.2)
      else .error .broadcastErr
    else .error .shapeErr

end Netflix

namespace Folds

/-- Minimum of a list of rationals, as `np.min` / `pandas` compute it on
a nonempty vector (the default 0 for the empty list is never reached:
`create_folds` fails earlier on an empty table). -/
def listMin : List ℚ → ℚ
  | [] => 0
  | a :: t => t.foldl min a

/-- Maximum of a list of rationals, as `np.max` computes it on a
nonempty vector. -/
def listMax : List ℚ → ℚ
  | [] => 0
  | a :: t => t.foldl max a

/-- Model of `int(np.floor(1 + np.log2(len(data))))` from
submission_netflix.py line 407.  For `N ≥ 1` we have
`floor(1 + log2 N) = 1 + ⌊log₂ N⌋ = 1 + Nat.log 2 N`; for `N = 0` the
Python expression raises (`log2(0) = -inf` cannot convert to `int`),
which `create_folds` models with its `emptyData` branch, so the value
at 0 is irrelevant. -/
def num_bins (N : ℕ) : ℕ := 1 + Nat.log 2 N

/-- Model of `pd.cut(y, bins=nb, labels=False)` applied to the value
`v` drawn from the vector `y` (line 408).  pandas computes equal-width
edges `linspace(mn, mx, nb+1)` over the min/max of `y`, makes the
intervals right-closed (`right=True` default), and extends the
leftmost edge down by 0.1% of the range so the minimum is included
(when `mn = mx` it instead widens both ends by 0.1% of `|mn|`, or by
0.001 when `mn = 0`).  For an in-range value (`mn ≤ v ≤ mx`, always
the case here since `v` is an entry of `y`) the assigned code is the
least `j` with `v ≤ edge (j+1)`, which is what we compute; the
extended left edge is exactly what makes `v = mn` land in bin 0, and
out-of-range values (pandas: NaN) cannot occur. -/
def cutBin {N : ℕ} (y : Fin N → ℚ) (nb : ℕ) (v : ℚ) : ℕ :=
  let mn := listMin (List.ofFn y)
  let mx := listMax (List.ofFn y)
  let lo := if mn = mx then (if mn = 0 then mn - 1/1000 else mn - |mn|/1000) else mn
  let hi := if mn = mx then (if mx = 0 then mx + 1/1000 else mx + |mx|/1000) else mx
  let edge : ℕ → ℚ := fun t => lo + (t : ℚ) * (hi - lo) / (nb : ℚ)
  (List.range nb).findIdx fun j => decide (v ≤ edge (j + 1))

/-- The `bins` column of the shuffled table
(`data.loc[:, "bins"] = pd.cut(y, bins=num_bins, labels=False)`,
line 408).  `pd.cut` is applied to the ORIGINAL, unshuffled target
vector `y` and its result is attached positionally, so shuffled row
`i` receives the bin of the original row `i` target `y i` — not the
bin of the target belonging to the row that now sits at position `i`.
This mismatch is the subject of claim C2. -/
def assignedBins {N : ℕ} (y : Fin N → ℚ) : Fin N → ℕ :=
  fun i => cutBin y (num_bins N) (y i)

/-- The label list `y` handed to `StratifiedKFold.split` (the values of
the `bins` column, in row order).  sklearn internally re-encodes labels
by first appearance; that re-encoding is an injective relabelling which
permutes the blocks of the sorted label vector but preserves class
membership and class counts, and the per-class RNG shuffle is already
an explicit parameter here, so we work with the raw labels. -/
def encList {N : ℕ} (bins : Fin N → ℕ) : List ℕ :=
  (List.finRange N).map bins

/-- Model of `y_order = np.sort(y_encoded)` inside
`StratifiedKFold._make_test_folds`: the label list rearranged into
ascending order (insertion sort is used only because it is structural,
hence kernel-executable; any sorted permutation is the same list). -/
def yOrder {N : ℕ} (bins : Fin N → ℕ) : List ℕ :=
  (encList bins).insertionSort (· ≤ ·)

/-- Model of `allocation[i, c] = np.bincount(y_order[i::k])[c]`: the
number of occurrences of label `c` in the strided slice `y_order[i::k]`.
For `i < k` that slice consists exactly of the entries at positions
`p ≡ i (mod k)`, which is how we count it. -/
def allocation {N : ℕ} (bins : Fin N → ℕ) (k i c : ℕ) : ℕ :=
  ((Finset.range (yOrder bins).length).filter
    fun p => p % k = i ∧ (yOrder bins).getD p 0 = c).card

/-- Model of `folds_for_class = np.arange(k).repeat(allocation[:, c])`:
the label `i` repeated `allocation[i, c]` times, for `i = 0, …, k-1`. -/
def foldsForClass {N : ℕ} (bins : Fin N → ℕ) (k c : ℕ) : List ℕ :=
  (List.range k).flatMap fun i => List.replicate (allocation bins k i c) i

/-- The row indices of class `c`, in increasing order: the positions
selected by the boolean mask `y_encoded == c`. -/
def classMembers {N : ℕ} (bins : Fin N → ℕ) (c : ℕ) : List (Fin N) :=
  (List.finRange N).filter fun j => decide (bins j = c)

/-- Model of the `test_folds` array of `StratifiedKFold`: row `j` of
class `c = bins j` is the `r`-th member of its class (in increasing
index order, `r` its rank) and receives the `r`-th entry of the
shuffled `folds_for_class` list for `c`.  The per-class shuffle
(`rng.shuffle(folds_for_class)`, driven by the seeded generator) is
the explicit parameter `sh`; theorems assume of it only that it
permutes its argument. -/
def testFolds {N : ℕ} (bins : Fin N → ℕ) (k : ℕ) (sh : ℕ → List ℕ → List ℕ)
    (j : Fin N) : ℕ :=
  (sh (bins j) (foldsForClass bins k (bins j))).getD
    ((classMembers bins (bins j)).indexOf j) 0

/-- The list of `(train_indices, test_indices)` pairs produced by
iterating `kf.split(...)` (lines 410-414): for each fold `f`, the test
mask is `test_folds == f` and the train indices are its complement,
both in increasing index order (as `np.where` emits them). -/
def splitsOf {N : ℕ} (bins : Fin N → ℕ) (k : ℕ) (sh : ℕ → List ℕ → List ℕ) :
    List (List (Fin N) × List (Fin N)) :=
  (List.range k).map fun f =>
    ((List.finRange N).filter fun j => decide (testFolds bins k sh j ≠ f),
     (List.finRange N).filter fun j => decide (testFolds bins k sh j = f))

/-- Error outcomes of `create_folds`, as the Python stack raises them:
`emptyData` — `int(np.floor(1 + np.log2(0)))` raises on an empty table;
`badNSplits` — the `StratifiedKFold` constructor raises `ValueError`
for `n_splits < 2`; `tooManySplits` — `kf.split` raises `ValueError`
when `n_splits` exceeds the number of samples; `allStrataTooSmall` —
`StratifiedKFold._make_test_folds` raises `ValueError` when
`np.all(n_splits > y_counts)`, i.e. when EVERY class has fewer than
`n_splits` members (when merely some class is small it only emits a
warning and proceeds). -/
inductive FoldError where
  | emptyData : FoldError
  | badNSplits : FoldError
  | tooManySplits : FoldError
  | allStrataTooSmall : FoldError
deriving DecidableEq

/-- Shallow embedding of `create_folds(data, y, n_splits, random_state)`
(submission_netflix.py lines 405-414).

Python source:
  data = data.sample(frac=1, random_state=random_state).reset_index(drop=True)
  num_bins = int(np.floor(1 + np.log2(len(data))))
  data.loc[:, "bins"] = pd.cut(y, bins=num_bins, labels=False)
  kf = StratifiedKFold(n_splits=n_splits, shuffle=True, random_state=random_state)
  splits = []
  for f, (t_, v_) in enumerate(kf.split(X=data, y=data.bins.values)):
      splits.append((t_, v_))
  return splits

The seeded random draws are explicit parameters: `π` is the row
permutation produced by `data.sample(frac=1, random_state=...)`
(shuffled position `i` holds original row `π i`), and `sh c` is the
in-place shuffle the fold generator applies to class `c`'s
`folds_for_class` array.  The returned index pairs refer to positions
of the shuffled table.  Because the `bins` column is computed from the
unshuffled `y` and attached positionally (see `assignedBins`), the
fold structure does not depend on `π` at all — `π` only changes which
original row sits at each shuffled position. -/
def create_folds {N : ℕ} (y : Fin N → ℚ) (k : ℕ) (π : Equiv.Perm (Fin N))
    (sh : ℕ → List ℕ → List ℕ) :
    Except FoldError (List (List (Fin N) × List (Fin N))) :=
  if N = 0 then .error .emptyData
  else if k < 2 then .error .badNSplits
  else if N < k then .error .tooManySplits
  else if ∀ c ∈ encList (assignedBins y), (encList (assignedBins y)).count c < k then
    .error .allStrataTooSmall
  else .ok (splitsOf (assignedBins y) k sh)

end Folds

namespace Netflix

theorem pinv_eq_inv {m : ℕ} (A : Matrix (Fin m) (Fin m) ℚ) : pinv A = A⁻¹ := by
  rw [pinv, Matrix.inv_def, Ring.inverse_eq_inv]

end Netflix

namespace Folds

/-- The fold structure is a function of the targets, the fold count and
the in-class shuffles only; the row permutation `π` merely decides
which original row occupies each shuffled position. -/
theorem create_folds_perm_irrelevant {N : ℕ} (y : Fin N → ℚ) (k : ℕ)
    (π π' : Equiv.Perm (Fin N)) (sh : ℕ → List ℕ → List ℕ) :
    create_folds y k π sh = create_folds y k π' sh := rfl

/-- Counting positions of a list holding a given value counts the
occurrences of that value. -/
theorem count_getD_range (L : List ℕ) (c : ℕ) :
    ((Finset.range L.length).filter fun p => L.getD p 0 = c).card = L.count c := by
  induction L with
  | nil => simp
  | cons a t ih =>
    rw [Finset.card_filter] at ih ⊢
    rw [List.length_cons, Finset.sum_range_succ']
    simp only [List.getD_cons_succ, List.getD_cons_zero]
    rw [ih, List.count_cons]
    by_cases h : a = c <;> simp [h]

/-- The strided slices `y_order[i::k]`, `i = 0, …, k-1`, partition the
sorted label list, so the per-slice counts of a label sum to its total
count. -/
theorem sum_allocation {N : ℕ} (bins : Fin N → ℕ) {k : ℕ} (hk : 0 < k) (c : ℕ) :
    ∑ i ∈ Finset.range k, allocation bins k i c = (yOrder bins).count c := by
  have hmem : ∀ p ∈ (Finset.range (yOrder bins).length).filter
      (fun p => (yOrder bins).getD p 0 = c), p % k ∈ Finset.range k :=
    fun p _ => Finset.mem_range.mpr (Nat.mod_lt _ hk)
  have h1 := @Finset.card_eq_sum_card_fiberwise ℕ ℕ _ (fun p => p % k)
      ((Finset.range (yOrder bins).length).filter fun p => (yOrder bins).getD p 0 = c)
      (Finset.range k) hmem
  rw [count_getD_range] at h1
  rw [h1]
  apply Finset.sum_congr rfl
  intro i _
  rw [allocation, Finset.filter_filter]
  apply congrArg
  apply Finset.filter_congr
  intro p _
  constructor
  · exact fun h => ⟨h.2, h.1⟩
  · exact fun h => ⟨h.2, h.1⟩

/-- Sorting preserves label counts, and the count of label `c` is the
number of rows of class `c`. -/
theorem count_yOrder {N : ℕ} (bins : Fin N → ℕ) (c : ℕ) :
    (yOrder bins).count c = (classMembers bins c).length := by
  rw [yOrder, (List.perm_insertionSort _ _).count_eq, encList, classMembers,
    ← List.countP_eq_length_filter]
  rw [List.count, List.countP_map]
  apply List.countP_congr
  intro j _
  by_cases h : bins j = c <;> simp [Function.comp, h]

/-- `folds_for_class` for class `c` has exactly one entry per member of
the class. -/
theorem length_foldsForClass {N : ℕ} (bins : Fin N → ℕ) {k : ℕ} (hk : 0 < k) (c : ℕ) :
    (foldsForClass bins k c).length = (classMembers bins c).length := by
  rw [foldsForClass, List.length_flatMap, ← count_yOrder bins c, ← sum_allocation bins hk c]
  have h2 : List.map (List.length ∘ fun i => List.replicate (allocation bins k i c) i)
      (List.range k) = List.map (fun i => allocation bins k i c) (List.range k) := by
    simp [Function.comp]
  rw [h2]
  rfl

/-- Every entry of `folds_for_class` is a fold label below `k`. -/
theorem mem_foldsForClass {N : ℕ} (bins : Fin N → ℕ) {k c x : ℕ}
    (hx : x ∈ foldsForClass bins k c) : x < k := by
  rw [foldsForClass, List.mem_flatMap] at hx
  obtain ⟨i, hi, hxi⟩ := hx
  rw [List.mem_range] at hi
  rw [List.mem_replicate] at hxi
  omega

/-- Provided the per-class shuffles really permute their argument, the
`test_folds` array is everywhere a fold label below `k`. -/
theorem testFolds_lt {N : ℕ} (bins : Fin N → ℕ) {k : ℕ} (sh : ℕ → List ℕ → List ℕ)
    (hk : 0 < k) (hsh : ∀ c L, (sh c L).Perm L) (j : Fin N) :
    testFolds bins k sh j < k := by
  rw [testFolds]
  have hmem : j ∈ classMembers bins (bins j) := by
    rw [classMembers, List.mem_filter]
    exact ⟨List.mem_finRange j, by simp⟩
  have hidx : (classMembers bins (bins j)).indexOf j < (classMembers bins (bins j)).length :=
    List.indexOf_lt_length.mpr hmem
  have hlt : (classMembers bins (bins j)).indexOf j <
      (sh (bins j) (foldsForClass bins k (bins j))).length := by
    rw [(hsh _ _).length_eq, length_foldsForClass bins hk]
    exact hidx
  rw [List.getD_eq_getElem _ _ hlt]
  exact mem_foldsForClass bins ((hsh _ _).mem_iff.mp (List.getElem_mem hlt))

/-- Inversion: a successful `create_folds` run passed every validity
check and returned exactly the stratified split structure. -/
theorem create_folds_ok {N : ℕ} {y : Fin N → ℚ} {k : ℕ} {π : Equiv.Perm (Fin N)}
    {sh : ℕ → List ℕ → List ℕ} {s : List (List (Fin N) × List (Fin N))}
    (h : create_folds y k π sh = .ok s) :
    2 ≤ k ∧ s = splitsOf (assignedBins y) k sh := by
  rw [create_folds] at h
  split_ifs at h with h0 h1 h2 h3
  cases h
  exact ⟨by omega, rfl⟩

/-- Membership in the validation list of fold `f` is exactly having
test-fold label `f`. -/
theorem mem_val_iff {N : ℕ} (bins : Fin N → ℕ) (k : ℕ) (sh : ℕ → List ℕ → List ℕ)
    (f : ℕ) (j : Fin N) :
    (j ∈ (List.finRange N).filter fun j' => decide (testFolds bins k sh j' = f)) ↔
      testFolds bins k sh j = f := by
  simp [List.mem_filter, List.mem_finRange]

/-- Concrete value of `num_bins` at a table of 2 rows. -/
theorem num_bins_two : num_bins 2 = 2 := by
  rw [num_bins, @Nat.log_eq_of_pow_le_of_lt_pow 2 1 2 (by norm_num) (by norm_num)]

/-- Concrete value of `num_bins` at a table of 4 rows. -/
theorem num_bins_four : num_bins 4 = 3 := by
  rw [num_bins, @Nat.log_eq_of_pow_le_of_lt_pow 2 2 4 (by norm_num) (by norm_num)]

/-- Concrete value of `num_bins` at a table of 6 rows. -/
theorem num_bins_six : num_bins 6 = 3 := by
  rw [num_bins, @Nat.log_eq_of_pow_le_of_lt_pow 2 2 6 (by norm_num) (by norm_num)]

/-- Bin labels for the two-row table with targets `(0, 100)`: two
equal-width bins over `[0, 100]` put them in bins 0 and 1. -/
theorem bins_two : assignedBins (![(0:ℚ), 100]) = ![0, 1] := by
  funext i
  simp only [assignedBins, num_bins_two, cutBin, List.ofFn_succ, List.ofFn_zero,
    listMin, listMax]
  fin_cases i <;> norm_num [min_def, max_def, List.range_succ, List.findIdx_cons]

/-- Bin labels for the four-row table with targets `(0, 0, 100, 100)`:
three equal-width bins over `[0, 100]` put them in bins 0, 0, 2, 2. -/
theorem bins_four : assignedBins (![(0:ℚ), 0, 100, 100]) = ![0, 0, 2, 2] := by
  funext i
  simp only [assignedBins, num_bins_four, cutBin, List.ofFn_succ, List.ofFn_zero,
    listMin, listMax]
  fin_cases i <;> norm_num [min_def, max_def, List.range_succ, List.findIdx_cons]

/-- Bin labels for the six-row table with targets `(0, 10, 10, 10, 10, 10)`:
three equal-width bins over `[0, 10]` give strata of sizes 1 and 5. -/
theorem bins_six : assignedBins (![(0:ℚ), 10, 10, 10, 10, 10]) = ![0, 2, 2, 2, 2, 2] := by
  funext i
  simp only [assignedBins, num_bins_six, cutBin, List.ofFn_succ, List.ofFn_zero,
    listMin, listMax]
  fin_cases i <;> norm_num [min_def, max_def, List.range_succ, List.findIdx_cons]

/-- Concrete run: four rows in two strata of size 2 each, two folds,
identity shuffles. -/
theorem create_folds_y4 :
    create_folds (![(0:ℚ), 0, 100, 100]) 2 1 (fun _ l => l) =
      .ok [([1, 3], [0, 2]), ([0, 2], [1, 3])] := by
  rw [create_folds, bins_four]
  rfl

/-- Concrete run: six rows with strata of sizes 1 and 5, five folds,
identity shuffles.  The small stratum does not make the run fail; its
single member is placed in fold 0's validation set. -/
theorem create_folds_y6 :
    create_folds (![(0:ℚ), 10, 10, 10, 10, 10]) 5 1 (fun _ l => l) =
      .ok [([2, 3, 4, 5], [0, 1]), ([0, 1, 3, 4, 5], [2]), ([0, 1, 2, 4, 5], [3]),
           ([0, 1, 2, 3, 5], [4]), ([0, 1, 2, 3, 4], [5])] := by
  rw [create_folds, bins_six]
  rfl

/-- C3: for every dataset, every `n_splits = k ≥ 2` and every seed
(modelled by the row permutation `π` and in-class shuffles `sh`, assumed
only to permute their argument) for which `create_folds` returns, the
`k` returned (train, validation) pairs satisfy: each pair partitions
`{0, …, N-1}` into two disjoint sets whose union is the full index set
(membership in validation is exactly non-membership in train), and every
index lies in exactly one validation set. -/
theorem claim_C3 {N : ℕ} (y : Fin N → ℚ) (k : ℕ) (π : Equiv.Perm (Fin N))
    (sh : ℕ → List ℕ → List ℕ) (s : List (List (Fin N) × List (Fin N)))
    (hsh : ∀ c L, (sh c L).Perm L)
    (h : create_folds y k π sh = .ok s) :
    s.length = k ∧
    (∀ pr ∈ s, ∀ j : Fin N, j ∈ pr.2 ↔ j ∉ pr.1) ∧
    (∀ j : Fin N, (s.countP fun pr => decide (j ∈ pr.2)) = 1) := by
  obtain ⟨hk, rfl⟩ := create_folds_ok h
  refine ⟨by simp [splitsOf], ?_, ?_⟩
  · intro pr hpr j
    rw [splitsOf, List.mem_map] at hpr
    obtain ⟨f, hf, rfl⟩ := hpr
    simp [List.mem_filter, List.mem_finRange]
  · intro j
    rw [splitsOf, List.countP_map]
    have hcongr : ∀ f ∈ List.range k,
        ((fun pr : List (Fin N) × List (Fin N) => decide (j ∈ pr.2)) ∘ fun f =>
          ((List.finRange N).filter fun j' => decide (testFolds (assignedBins y) k sh j' ≠ f),
           (List.finRange N).filter fun j' => decide (testFolds (assignedBins y) k sh j' = f))) f
        = (f == testFolds (assignedBins y) k sh j) := by
      intro f _
      by_cases hj : testFolds (assignedBins y) k sh j = f
      · simp [List.mem_filter, List.mem_finRange, hj]
      · simp [List.mem_filter, hj]
        exact fun hh => hj hh.symm
    rw [List.countP_congr fun f hf => by rw [hcongr f hf]]
    have hcount : (List.range k).countP (fun f => f == testFolds (assignedBins y) k sh j)
        = (List.range k).count (testFolds (assignedBins y) k sh j) := rfl
    rw [hcount]
    exact List.count_eq_one_of_mem (List.nodup_range k)
      (List.mem_range.mpr (testFolds_lt _ sh (by omega) hsh j))

/-- Witness for C3 at the concrete four-row, two-fold run. -/
theorem claim_C3_witness :
    ([([1, 3], [0, 2]), ([0, 2], [1, 3])] : List (List (Fin 4) × List (Fin 4))).length = 2 ∧
    (∀ pr ∈ ([([1, 3], [0, 2]), ([0, 2], [1, 3])] : List (List (Fin 4) × List (Fin 4))),
      ∀ j : Fin 4, j ∈ pr.2 ↔ j ∉ pr.1) ∧
    (∀ j : Fin 4,
      (([([1, 3], [0, 2]), ([0, 2], [1, 3])] : List (List (Fin 4) × List (Fin 4))).countP
        fun pr => decide (j ∈ pr.2)) = 1) :=
  claim_C3 (![(0:ℚ), 0, 100, 100]) 2 1 (fun _ l => l) _
    (fun _ L => List.Perm.refl L) create_folds_y4

/-- C2 (code_bug evaluation): with targets `(0, 100)` and the seed
whose row permutation is the transposition, the shuffled table's row 0
holds original row 1 (own target 100, own equal-width bin 1), yet the
code attaches to it the bin of the ORIGINAL row-0 target, namely bin 0:
`pd.cut` is applied to the unshuffled `y` and assigned positionally.
The bin-count half of the claim does hold: `num_bins 2 = floor(1 + log2 2) = 2`. -/
theorem claim_C2 :
    assignedBins (![(0:ℚ), 100]) 0 = 0 ∧
    cutBin (![(0:ℚ), 100]) (num_bins 2) ((![(0:ℚ), 100]) ((Equiv.swap 0 1) 0)) = 1 ∧
    num_bins 2 = 2 := by
  refine ⟨?_, ?_, num_bins_two⟩
  · rw [bins_two]
    rfl
  · rw [Equiv.swap_apply_left, num_bins_two]
    have h100 : (![(0:ℚ), 100]) 1 = 100 := rfl
    rw [h100]
    have := congrFun bins_two 1
    simpa [assignedBins, num_bins_two] using this

/-- C5 (amended): given `N ≠ 0`, `2 ≤ k ≤ N`, `create_folds` raises the
stratum-size error exactly when EVERY stratum has fewer than `k`
members (sklearn's `np.all(n_splits > y_counts)` check); when merely
some stratum is smaller than `k` but another is not, it returns a fold
assignment (sklearn only warns). -/
theorem claim_C5 {N : ℕ} (y : Fin N → ℚ) (k : ℕ) (π : Equiv.Perm (Fin N))
    (sh : ℕ → List ℕ → List ℕ) (hN : ¬ N = 0) (hk2 : 2 ≤ k) (hkN : k ≤ N) :
    ((∀ c ∈ encList (assignedBins y), (encList (assignedBins y)).count c < k) →
      create_folds y k π sh = .error .allStrataTooSmall) ∧
    ((∃ c ∈ encList (assignedBins y), k ≤ (encList (assignedBins y)).count c) →
      create_folds y k π sh = .ok (splitsOf (assignedBins y) k sh)) := by
  constructor
  · intro hall
    rw [create_folds, if_neg hN, if_neg (by omega), if_neg (by omega), if_pos hall]
  · rintro ⟨c, hc, hcount⟩
    rw [create_folds, if_neg hN, if_neg (by omega), if_neg (by omega),
      if_neg fun hall => absurd (hall c hc) (by omega)]

/-- Counterexample to C5 as stated: the six-row table has a stratum
(label 0) with a single member, fewer than `n_splits = 5`, yet
`create_folds` raises nothing and returns a complete fold assignment. -/
theorem claim_C5_cex :
    ((encList (assignedBins (![(0:ℚ), 10, 10, 10, 10, 10]))).count 0 = 1 ∧
      (0 : ℕ) ∈ encList (assignedBins (![(0:ℚ), 10, 10, 10, 10, 10]))) ∧
    create_folds (![(0:ℚ), 10, 10, 10, 10, 10]) 5 1 (fun _ l => l) =
      .ok [([2, 3, 4, 5], [0, 1]), ([0, 1, 3, 4, 5], [2]), ([0, 1, 2, 4, 5], [3]),
           ([0, 1, 2, 3, 5], [4]), ([0, 1, 2, 3, 4], [5])] := by
  refine ⟨⟨?_, ?_⟩, create_folds_y6⟩
  · rw [bins_six]
    rfl
  · rw [bins_six]
    decide

/-- Witness for C5 (amended) at the two-row table, where both strata
have one member, fewer than `k = 2`, so the run fails. -/
theorem claim_C5_witness :
    create_folds (![(0:ℚ), 100]) 2 1 (fun _ l => l) = .error .allStrataTooSmall :=
  (claim_C5 (![(0:ℚ), 100]) 2 1 (fun _ l => l) (by omega) (by omega) (by omega)).1
    (by rw [bins_two]; decide)

end Folds

namespace Netflix

/-- C1: for `m ≥ 1` models with prediction vectors of length `n ≥ 1`,
`netflix(es, ps, e0, l)` returns exactly `(X @ w, w)` where `X` is the
n×m matrix whose columns are the prediction vectors,
`pTy i = 0.5 * (n·e0² + Σ_j (p_i j)² - n·(es i)²)`, and
`w = pinv(XᵗX + l·n·I) @ pTy` — i.e. the code agrees with the
specification formula (`netflixSpec`) verbatim. -/
theorem claim_C1 {m n : ℕ} (es : Fin m → ℚ) (ps : Fin m → Fin n → ℚ) (e0 l : ℚ)
    (hm : 0 < m) (hn : 0 < n) :
    netflix es ps e0 l = netflixSpec es ps e0 l := rfl

/-- Witness for C1 at a concrete one-model input. -/
theorem claim_C1_witness :
    netflix (![(1:ℚ)]) (![![2]]) 1 (1/1000) = netflixSpec (![(1:ℚ)]) (![![2]]) 1 (1/1000) :=
  claim_C1 (![(1:ℚ)]) (![![2]]) 1 (1/1000) (by omega) (by omega)

/-- C10: permuting the example indices of all prediction vectors
simultaneously leaves the weight vector unchanged and permutes the
blended prediction by the same permutation — the weights depend on the
predictions only through `XᵀX` and the per-model sums of squares, both
permutation-invariant. -/
theorem claim_C10 {m n : ℕ} (es : Fin m → ℚ) (ps : Fin m → Fin n → ℚ) (e0 l : ℚ)
    (σ : Equiv.Perm (Fin n)) :
    (netflix es (fun i j => ps i (σ j)) e0 l).2 = (netflix es ps e0 l).2 ∧
    ∀ j, (netflix es (fun i j => ps i (σ j)) e0 l).1 j = (netflix es ps e0 l).1 (σ j) := by
  have hG : (Matrix.of fun i j => ps i (σ j)).transpose.transpose *
      (Matrix.of fun i j => ps i (σ j)).transpose + (l * (n : ℚ)) • 1 =
      (Matrix.of ps).transpose.transpose * (Matrix.of ps).transpose + (l * (n : ℚ)) • 1 := by
    congr 1
    ext i i'
    simp only [Matrix.mul_apply, Matrix.transpose_apply, Matrix.of_apply]
    exact Equiv.sum_comp σ fun j => ps i j * ps i' j
  have hpTy : (fun i => (1/2 : ℚ) * ((n : ℚ) * e0 ^ 2 +
      (∑ j, ((Matrix.of fun i j => ps i (σ j)).transpose j i) ^ 2) - (n : ℚ) * (es i) ^ 2)) =
      (fun i => (1/2 : ℚ) * ((n : ℚ) * e0 ^ 2 +
      (∑ j, ((Matrix.of ps).transpose j i) ^ 2) - (n : ℚ) * (es i) ^ 2)) := by
    funext i
    have := Equiv.sum_comp σ fun j => (ps i j) ^ 2
    simp only [Matrix.transpose_apply, Matrix.of_apply]
    rw [this]
  have hw : (netflix es (fun i j => ps i (σ j)) e0 l).2 = (netflix es ps e0 l).2 := by
    simp only [netflix]
    rw [hG, hpTy]
  refine ⟨hw, fun j => ?_⟩
  have h1 : (netflix es (fun i j => ps i (σ j)) e0 l).1 j =
      ∑ i, ps i (σ j) * (netflix es (fun i j => ps i (σ j)) e0 l).2 i := rfl
  have h2 : (netflix es ps e0 l).1 (σ j) =
      ∑ i, ps i (σ j) * (netflix es ps e0 l).2 i := rfl
  rw [h1, h2, hw]

/-- Scaling a square rational matrix scales the `pinv` model inversely
(true of the Moore-Penrose pseudo-inverse as well, and, as proved here,
of the adjugate-based model, including singular input). -/
theorem pinv_smul {m : ℕ} (hm : 0 < m) {c : ℚ} (hc : c ≠ 0) (A : Matrix (Fin m) (Fin m) ℚ) :
    pinv (c • A) = c⁻¹ • pinv A := by
  obtain ⟨m', rfl⟩ : ∃ m', m = m' + 1 := ⟨m - 1, by omega⟩
  rw [pinv, pinv, Matrix.det_smul, Matrix.adjugate_smul, smul_smul, smul_smul]
  congr 1
  simp only [Fintype.card_fin, Nat.add_sub_cancel]
  by_cases hd : A.det = 0
  · simp [hd]
  · rw [mul_inv, pow_succ, mul_inv]
    field_simp
    ring

/-- C6: duplicating every prediction vector's entries (appending each
vector to itself, so `n` doubles) while keeping the RMSEs, the baseline
RMSE and `λ` yields exactly the same weight vector: the Gram matrix and
`pTy` both double, and the regularisation term `λ·n·I` doubles with
them, so the solved system is a scalar multiple of the original. -/
theorem claim_C6 {m n : ℕ} (es : Fin m → ℚ) (ps : Fin m → Fin n → ℚ) (e0 l : ℚ) :
    (netflix es (fun i => Fin.append (ps i) (ps i)) e0 l).2 = (netflix es ps e0 l).2 := by
  rcases Nat.eq_zero_or_pos m with hm | hm
  · funext i
    rw [hm] at i
    exact i.elim0
  have hG : (Matrix.of fun i => Fin.append (ps i) (ps i)).transpose.transpose *
      (Matrix.of fun i => Fin.append (ps i) (ps i)).transpose + (l * ((n + n : ℕ) : ℚ)) • 1 =
      (2 : ℚ) • ((Matrix.of ps).transpose.transpose * (Matrix.of ps).transpose +
        (l * (n : ℚ)) • 1) := by
    ext i i'
    simp only [Matrix.add_apply, Matrix.smul_apply, Matrix.mul_apply, Matrix.transpose_apply,
      Matrix.of_apply, Matrix.one_apply, Fin.sum_univ_add, Fin.append_left, Fin.append_right,
      smul_eq_mul]
    push_cast
    split_ifs <;> ring
  have hpTy : (fun i => (1/2 : ℚ) * (((n + n : ℕ) : ℚ) * e0 ^ 2 +
      (∑ j, ((Matrix.of fun i => Fin.append (ps i) (ps i)).transpose j i) ^ 2) -
      ((n + n : ℕ) : ℚ) * (es i) ^ 2)) =
      (2 : ℚ) • (fun i => (1/2 : ℚ) * ((n : ℚ) * e0 ^ 2 +
      (∑ j, ((Matrix.of ps).transpose j i) ^ 2) - (n : ℚ) * (es i) ^ 2)) := by
    funext i
    simp only [Matrix.transpose_apply, Matrix.of_apply, Pi.smul_apply, smul_eq_mul,
      Fin.sum_univ_add, Fin.append_left, Fin.append_right]
    push_cast
    ring
  simp only [netflix]
  rw [hG, hpTy, pinv_smul hm two_ne_zero, Matrix.smul_mulVec_assoc, Matrix.mulVec_smul,
    smul_smul]
  norm_num

/-- Concrete weight computation backing C9: two identical prediction
vectors with scores `0` and `1`, baseline `1`, `λ = 1/4`.  The Gram
system is `(XᵀX + λ·n·I) = [[5/2, 2], [2, 5/2]]`, `pTy = (2, 1)`, and
the solved weights are `(4/3, -2/3)`. -/
theorem netflix_C9_weights :
    (netflix (![(0:ℚ), 1]) (![![1, 1], ![1, 1]]) 1 (1/4)).2 = ![4/3, -2/3] := by
  have hG : (Matrix.of (![![1, 1], ![1, 1]] : Fin 2 → Fin 2 → ℚ)).transpose.transpose *
      (Matrix.of (![![1, 1], ![1, 1]] : Fin 2 → Fin 2 → ℚ)).transpose +
      ((1/4 : ℚ) * ((2 : ℕ) : ℚ)) • 1 = !![5/2, 2; 2, 5/2] := by
    ext i i'
    fin_cases i <;> fin_cases i' <;>
      simp [Matrix.mul_apply, Fin.sum_univ_two, Matrix.one_apply, Matrix.transpose_apply,
        Matrix.vecHead, Matrix.vecTail, Matrix.cons_val_zero, Matrix.cons_val_one,
        Matrix.head_cons] <;> norm_num
  funext i
  simp only [netflix]
  rw [hG]
  have hdet : (!![5/2, 2; 2, 5/2] : Matrix (Fin 2) (Fin 2) ℚ).det = 9/4 := by
    rw [Matrix.det_fin_two_of]
    norm_num
  have hadj : (!![5/2, 2; 2, 5/2] : Matrix (Fin 2) (Fin 2) ℚ).adjugate = !![5/2, -2; -2, 5/2] := by
    rw [Matrix.adjugate_fin_two_of]
  rw [pinv, hdet, hadj]
  fin_cases i <;>
    · simp [Matrix.mulVec, Matrix.dotProduct, Fin.sum_univ_two, Matrix.transpose_apply,
        Matrix.vecHead, Matrix.vecTail, Matrix.cons_val_zero, Matrix.cons_val_one,
        Matrix.head_cons]
      norm_num

/-- C9: the weight vector is unconstrained — `netflix` applies no
clipping, projection or normalisation: on a valid two-model input
(identical predictions, scores 0 and 1, `λ = 1/4 > 0`) the returned
weights contain a negative entry and do not sum to 1. -/
theorem claim_C9 :
    (netflix (![(0:ℚ), 1]) (![![1, 1], ![1, 1]]) 1 (1/4)).2 1 < 0 ∧
    (netflix (![(0:ℚ), 1]) (![![1, 1], ![1, 1]]) 1 (1/4)).2 0 +
      (netflix (![(0:ℚ), 1]) (![![1, 1], ![1, 1]]) 1 (1/4)).2 1 ≠ 1 := by
  rw [netflix_C9_weights]
  norm_num

/-- Closed form of the single-model weight: for `m = 1`, where the
supplied model RMSE equals the baseline RMSE, the solved weight is
`S / (2·(S + λ·n))` with `S = Σ p²` — so it tends to 1/2, not 1, as
`λ → 0`. -/
theorem netflix_m1_weight {n : ℕ} (p : Fin n → ℚ) (e0 l : ℚ)
    (h : (∑ j, (p j) ^ 2) + l * (n : ℚ) ≠ 0) :
    (netflix ![e0] ![p] e0 l).2 0 =
      (∑ j, (p j) ^ 2) / (2 * ((∑ j, (p j) ^ 2) + l * (n : ℚ))) := by
  simp only [netflix, pinv]
  rw [Matrix.adjugate_fin_one, Matrix.det_fin_one]
  simp only [Matrix.mulVec, Matrix.dotProduct, Fin.sum_univ_one, Matrix.smul_apply,
    Matrix.add_apply, Matrix.mul_apply, Matrix.transpose_apply, Matrix.of_apply,
    Matrix.one_apply_eq, Matrix.cons_val_zero, smul_eq_mul]
  simp only [← pow_two]
  rw [eq_div_iff (by intro hz; exact h (by linarith))]
  ring_nf
  have hstep : (∑ x : Fin n, p x ^ 2) * l * (n : ℚ) * ((∑ x : Fin n, p x ^ 2) + l * (n : ℚ))⁻¹ +
      (∑ x : Fin n, p x ^ 2) ^ 2 * ((∑ x : Fin n, p x ^ 2) + l * (n : ℚ))⁻¹ =
      (∑ x : Fin n, p x ^ 2) * (((∑ x : Fin n, p x ^ 2) + l * (n : ℚ)) *
        ((∑ x : Fin n, p x ^ 2) + l * (n : ℚ))⁻¹) := by ring
  rw [hstep, mul_inv_cancel₀ h, mul_one]

/-- For `m = 1` the blended prediction is the prediction vector scaled
by the single solved weight. -/
theorem netflix_m1_blend {n : ℕ} (p : Fin n → ℚ) (e0 l : ℚ) (j : Fin n) :
    (netflix ![e0] ![p] e0 l).1 j = p j * (netflix ![e0] ![p] e0 l).2 0 := by
  have h1 : (netflix ![e0] ![p] e0 l).1 j =
      ∑ i, (Matrix.of (![p] : Fin 1 → Fin n → ℚ)).transpose j i *
        (netflix ![e0] ![p] e0 l).2 i := rfl
  rw [h1, Fin.sum_univ_one]
  rfl

/-- C7 (amended): for a single model whose supplied RMSE equals the
baseline RMSE and whose prediction vector has nonzero sum of squares
`S`, the solved weight is exactly `S / (2·(S + λ·n))` for every
`λ ≥ 0`; as `λ → 0` it converges to **1/2** (not 1), and the blended
output converges to **p/2** (not p). -/
theorem claim_C7 {n : ℕ} (p : Fin n → ℚ) (e0 : ℚ) (hS : (∑ j, (p j) ^ 2) ≠ 0) :
    (∀ l : ℚ, 0 ≤ l →
      (netflix ![e0] ![p] e0 l).2 0 =
        (∑ j, (p j) ^ 2) / (2 * ((∑ j, (p j) ^ 2) + l * (n : ℚ)))) ∧
    (∀ ε : ℚ, 0 < ε → ∃ δ : ℚ, 0 < δ ∧ ∀ l : ℚ, 0 < l → l < δ →
      |(netflix ![e0] ![p] e0 l).2 0 - 1/2| < ε) ∧
    (∀ ε : ℚ, 0 < ε → ∃ δ : ℚ, 0 < δ ∧ ∀ l : ℚ, 0 < l → l < δ →
      ∀ j, |(netflix ![e0] ![p] e0 l).1 j - p j / 2| < ε) := by
  have hS0 : 0 < ∑ j, (p j) ^ 2 :=
    lt_of_le_of_ne (Finset.sum_nonneg fun j _ => sq_nonneg _) (Ne.symm hS)
  have hn : 0 < n := Nat.pos_of_ne_zero fun h0 => hS (by subst h0; simp)
  have hnQ : (0:ℚ) < (n : ℚ) := by exact_mod_cast hn
  have part1 : ∀ l : ℚ, 0 ≤ l →
      (netflix ![e0] ![p] e0 l).2 0 =
        (∑ j, (p j) ^ 2) / (2 * ((∑ j, (p j) ^ 2) + l * (n : ℚ))) := by
    intro l hl
    have hpos : 0 < (∑ j, (p j) ^ 2) + l * (n : ℚ) := by nlinarith
    exact netflix_m1_weight p e0 l (ne_of_gt hpos)
  have part2 : ∀ ε : ℚ, 0 < ε → ∃ δ : ℚ, 0 < δ ∧ ∀ l : ℚ, 0 < l → l < δ →
      |(netflix ![e0] ![p] e0 l).2 0 - 1/2| < ε := by
    intro ε hε
    refine ⟨2 * (∑ j, (p j) ^ 2) * ε / (n : ℚ), by positivity, fun l hl hld => ?_⟩
    rw [part1 l hl.le]
    have hu : 0 < (∑ j, (p j) ^ 2) + l * (n : ℚ) := by nlinarith
    have heq : (∑ j, (p j) ^ 2) / (2 * ((∑ j, (p j) ^ 2) + l * (n : ℚ))) - 1/2 =
        -((l * (n : ℚ)) / (2 * ((∑ j, (p j) ^ 2) + l * (n : ℚ)))) := by
      field_simp
      ring
    rw [heq, abs_neg, abs_of_nonneg (by positivity)]
    rw [div_lt_iff₀ (by positivity)]
    have h1 : l * (n : ℚ) < 2 * (∑ j, (p j) ^ 2) * ε := (lt_div_iff₀ hnQ).mp hld
    nlinarith [mul_pos hε (mul_pos hl hnQ)]
  refine ⟨part1, part2, ?_⟩
  intro ε hε
  have hM : (0:ℚ) < (∑ j, |p j|) + 1 := by positivity
  obtain ⟨δ, hδ, hb⟩ := part2 (ε / ((∑ j, |p j|) + 1)) (by positivity)
  refine ⟨δ, hδ, fun l hl hld j => ?_⟩
  rw [netflix_m1_blend]
  have heq2 : p j * (netflix ![e0] ![p] e0 l).2 0 - p j / 2 =
      p j * ((netflix ![e0] ![p] e0 l).2 0 - 1/2) := by ring
  rw [heq2, abs_mul]
  have hpj : |p j| ≤ (∑ j, |p j|) + 1 := by
    have := Finset.single_le_sum (f := fun j => |p j|) (fun i _ => abs_nonneg _)
      (Finset.mem_univ j)
    linarith
  calc |p j| * |(netflix ![e0] ![p] e0 l).2 0 - 1/2|
      ≤ ((∑ j, |p j|) + 1) * |(netflix ![e0] ![p] e0 l).2 0 - 1/2| :=
        mul_le_mul_of_nonneg_right hpj (abs_nonneg _)
    _ < ((∑ j, |p j|) + 1) * (ε / ((∑ j, |p j|) + 1)) :=
        mul_lt_mul_of_pos_left (hb l hl hld) hM
    _ = ε := by
        rw [mul_comm, div_mul_cancel₀ _ (ne_of_gt hM)]

/-- Counterexample to C7 as stated: for the single prediction vector
`p = (2)` with supplied RMSE equal to the baseline RMSE `1`, the solved
weight is `2 / (4 + λ)`, which does NOT converge to 1 as `λ → 0` (it
converges to 1/2): convergence to 1 fails already at `ε = 1/3`. -/
theorem claim_C7_cex :
    ¬ (∀ ε : ℚ, 0 < ε → ∃ δ : ℚ, 0 < δ ∧ ∀ l : ℚ, 0 < l → l < δ →
        |(netflix ![(1:ℚ)] ![![2]] 1 l).2 0 - 1| < ε) := by
  intro hcl
  obtain ⟨δ, hδ, hb⟩ := hcl (1/3) (by norm_num)
  have hl2 : (0:ℚ) < δ/2 := by positivity
  have hval := hb (δ/2) hl2 (by linarith)
  have hS : (∑ j : Fin 1, ((![2] : Fin 1 → ℚ) j) ^ 2) = 4 := by
    norm_num [Fin.sum_univ_one]
  have hw := netflix_m1_weight (![2] : Fin 1 → ℚ) 1 (δ/2) (by rw [hS]; push_cast; nlinarith)
  rw [hw, hS] at hval
  have hc1 : ((1:ℕ) : ℚ) = 1 := by norm_num
  rw [hc1] at hval
  have heq : (4:ℚ) / (2 * (4 + δ/2 * 1)) - 1 = -((4 + δ) / (2 * (4 + δ/2))) := by
    have h4 : (0:ℚ) < 4 + δ/2 := by linarith
    field_simp
    ring
  rw [heq, abs_neg, abs_of_pos (by positivity)] at hval
  rw [div_lt_iff₀ (by positivity)] at hval
  linarith

/-- Witness for C7 (amended) at the concrete input `p = (2)`, `e0 = 1`. -/
theorem claim_C7_witness :
    (∀ l : ℚ, 0 ≤ l →
      (netflix ![(1:ℚ)] ![![2]] 1 l).2 0 =
        (∑ j : Fin 1, ((![2] : Fin 1 → ℚ) j) ^ 2) /
          (2 * ((∑ j : Fin 1, ((![2] : Fin 1 → ℚ) j) ^ 2) + l * ((1:ℕ) : ℚ)))) ∧
    (∀ ε : ℚ, 0 < ε → ∃ δ : ℚ, 0 < δ ∧ ∀ l : ℚ, 0 < l → l < δ →
      |(netflix ![(1:ℚ)] ![![2]] 1 l).2 0 - 1/2| < ε) ∧
    (∀ ε : ℚ, 0 < ε → ∃ δ : ℚ, 0 < δ ∧ ∀ l : ℚ, 0 < l → l < δ →
      ∀ j, |(netflix ![(1:ℚ)] ![![2]] 1 l).1 j - (![2] : Fin 1 → ℚ) j / 2| < ε) :=
  claim_C7 (![2] : Fin 1 → ℚ) 1 (by norm_num [Fin.sum_univ_one])

/-- At `n = 0` the `pTy` vector is identically zero, so the solved
weights are the zero vector regardless of the (singular) Gram matrix. -/
theorem netflix_pTy_zero {m n : ℕ} (es : Fin m → ℚ) (ps : Fin m → Fin n → ℚ) (e0 l : ℚ)
    (hn : n = 0) : (netflix es ps e0 l).2 = fun _ => 0 := by
  subst hn
  funext i
  simp [netflix, Matrix.mulVec, Matrix.dotProduct]

/-- Supplying `m ≥ 1` zero-length prediction vectors passes both
interpreter checks and returns the degenerate result: an empty blended
prediction and an all-zero weight vector — no error of any kind. -/
theorem netflixChecked_allEmpty (es : List ℚ) (p0 : List ℚ) (rest : List (List ℚ)) (e0 l : ℚ)
    (h0 : p0.length = 0) (hr : ∀ p ∈ rest, p.length = 0)
    (hm : es.length = (p0 :: rest).length) :
    netflixChecked es (p0 :: rest) e0 l = .ok ([], List.replicate (p0 :: rest).length 0) := by
  simp only [netflixChecked]
  rw [if_pos fun p hp => by rw [hr p hp, h0], if_pos hm]
  congr 1
  refine Prod.ext ?_ ?_
  · dsimp only
    apply List.eq_nil_of_length_eq_zero
    rw [List.length_ofFn]
    exact h0
  · dsimp only
    rw [netflix_pTy_zero _ _ _ _ h0]
    exact List.ofFn_const _ _

/-- C4 (amended): `netflix` fails before any matrix algebra when zero
models are supplied (the interpreter's IndexError at `len(ps[0])`) and
when the prediction vectors' lengths mismatch (the ValueError raised by
`np.stack` — the shape-mismatch error, no silent broadcasting or
truncation); but it performs no validation of its own, and zero-LENGTH
vectors (`n = 0` with `m ≥ 1` models) raise nothing: the call succeeds
with the degenerate result `([], [0, …, 0])`. -/
theorem claim_C4 :
    (∀ (es : List ℚ) (e0 l : ℚ), netflixChecked es [] e0 l = .error .indexErr) ∧
    (∀ (es : List ℚ) (p0 : List ℚ) (rest : List (List ℚ)) (e0 l : ℚ),
      (∃ p ∈ rest, p.length ≠ p0.length) →
      netflixChecked es (p0 :: rest) e0 l = .error .shapeErr) ∧
    (∀ (es : List ℚ) (p0 : List ℚ) (rest : List (List ℚ)) (e0 l : ℚ),
      p0.length = 0 → (∀ p ∈ rest, p.length = 0) → es.length = (p0 :: rest).length →
      netflixChecked es (p0 :: rest) e0 l = .ok ([], List.replicate (p0 :: rest).length 0)) := by
  refine ⟨fun es e0 l => rfl, ?_, fun es p0 rest e0 l => netflixChecked_allEmpty es p0 rest e0 l⟩
  rintro es p0 rest e0 l ⟨p, hp, hne⟩
  simp only [netflixChecked]
  rw [if_neg fun hall => hne (hall p hp)]

/-- Witness for C4 (amended) at concrete inputs for all three branches. -/
theorem claim_C4_witness :
    netflixChecked [] [] 1 1 = .error .indexErr ∧
    netflixChecked [1] [[2], [3, 4]] 1 1 = .error .shapeErr ∧
    netflixChecked [1] [[]] 1 1 = .ok ([], [0]) :=
  ⟨claim_C4.1 [] 1 1,
   claim_C4.2.1 [1] [2] [[3, 4]] 1 1 ⟨[3, 4], by simp, by simp⟩,
   claim_C4.2.2 [1] [] [] 1 1 rfl (by simp) rfl⟩

/-- Counterexample to C4 as stated: one model with a zero-length
prediction vector (and the default `λ = 1/10000`) does NOT raise
`EmptyInputError` — the call returns successfully with an empty blend
and weight `[0]`. -/
theorem claim_C4_cex :
    netflixChecked [1] [[]] 1 (1/10000) = .ok ([], [0]) :=
  netflixChecked_allEmpty [1] [] [] 1 (1/10000) rfl (by simp) rfl

end Netflix

/-- C8: both components are deterministic.  `create_folds` is a pure
function of the targets, the fold count and the seed-derived random
draws (the row permutation and per-class shuffles — the Python seeded
generator yields identical draws for identical `random_state`), and
`netflix` is a pure function of its four arguments: equal inputs give
equal outputs, with no hidden state. -/
theorem claim_C8 :
    (∀ (N : ℕ) (y y' : Fin N → ℚ) (k k' : ℕ) (π π' : Equiv.Perm (Fin N))
      (sh sh' : ℕ → List ℕ → List ℕ),
      y = y' → k = k' → π = π' → sh = sh' →
      Folds.create_folds y k π sh = Folds.create_folds y' k' π' sh') ∧
    (∀ (m n : ℕ) (es es' : Fin m → ℚ) (ps ps' : Fin m → Fin n → ℚ) (e0 e0' l l' : ℚ),
      es = es' → ps = ps' → e0 = e0' → l = l' →
      Netflix.netflix es ps e0 l = Netflix.netflix es' ps' e0' l') := by
  constructor
  · intro N y y' k k' π π' sh sh' h1 h2 h3 h4
    subst h1
    subst h2
    subst h3
    subst h4
    rfl
  · intro m n es es' ps ps' e0 e0' l l' h1 h2 h3 h4
    subst h1
    subst h2
    subst h3
    subst h4
    rfl

/-- Witness for C8 at concrete inputs. -/
theorem claim_C8_witness :
    Folds.create_folds (![(0:ℚ), 100]) 2 1 (fun _ l => l) =
      Folds.create_folds (![(0:ℚ), 100]) 2 1 (fun _ l => l) ∧
    Netflix.netflix (![(1:ℚ)]) (![![2]]) 1 1 = Netflix.netflix (![(1:ℚ)]) (![![2]]) 1 1 :=
  ⟨claim_C8.1 2 _ _ 2 2 1 1 _ _ rfl rfl rfl rfl,
   claim_C8.2 1 1 _ _ _ _ 1 1 1 1 rfl rfl rfl rfl⟩
